import Mathlib

/-!
Shallow embedding of `awkward/table.py` (the `Table` class of the
awkward-array prototype): a column-oriented table view over shared column
buffers, with a strided window `(start, step, length)`.

Column buffers live in a heap (`Heap`), and a table's `content` maps column
names to buffer ids (indices into the heap), so that aliasing between a base
table and its views is represented faithfully: two tables share a column's
storage exactly when they hold the same buffer id.
-/

namespace Awk

/-- A column buffer: integer element storage (the external column
buffer abstraction; the examples of the spec use integer columns). -/
abbrev Buf := List Int

/-- The store of all column buffers; a buffer id is an index into this
list.  Mutation of a buffer is `List.set` at its id. -/
abbrev Heap := List Buf

/-- The exceptions the Python code can raise, one constructor per raise
site or runtime error reached in `Table`. -/
inductive Err where
  /-- TypeError "stop must be a non-negative integer" (table.py:115-116). -/
  | typeStopNonneg
  /-- TypeError raised by `abs(self._start, value)` at table.py:119:
  Python's built-in `abs` takes exactly one argument. -/
  | typeAbsTwoArgs
  /-- TypeError "length must be a non-negative integer" (table.py:101-102). -/
  | lengthNeg
  /-- ValueError "field ... occurs more than once" (table.py:50, 67). -/
  | duplicateField
  /-- TypeError "only one positional argument when the first argument is a
  dict" (table.py:55). -/
  | dictPlusPositional
  /-- TypeError "positional arguments may be a single dict or varargs of
  unnamed arrays" (table.py:63). -/
  | badPositional
  /-- TypeError "only add new columns to the original table, not a table
  view" (table.py:190). -/
  | viewMutation
  /-- ValueError "last table row index must be smaller than all field array
  lengths" (table.py:143). -/
  | lengthViolation
  /-- ValueError "cannot copy sequence with size ... to array axis with
  dimension ..." (table.py:212), and numpy's broadcast-shape ValueError. -/
  | shapeMismatch
  /-- KeyError from `self._content[...]` on an absent column name. -/
  | unknownField
  /-- IndexError from element access outside the buffer. -/
  | indexOutOfRange
  /-- NameError: name `n` is not defined, raised by the body of the
  single-element broadcast branch at table.py:208, which reads a variable
  `n` that is bound nowhere in `__setitem__`. -/
  | nameErrorUnboundN
  deriving DecidableEq

/-- The table's state: the window basis `(start, step, length)`
(table.py:41-43; `stop` is derived) and the insertion-ordered mapping from
column name to buffer id (`self._content`, table.py:44). -/
structure Table where
  start : Int
  step : Int
  length : Int
  content : List (String × Nat)
  deriving DecidableEq

/-- The derived `stop` property (table.py:105-111): `start + step*length`,
or `None` when that is negative. -/
def Table.stop (t : Table) : Option Int :=
  if t.start + t.step * t.length < 0 then none else some (t.start + t.step * t.length)

/-- The last absolute row index an access through the window touches
(table.py:137-141): `start + step*(length-1)` when `step > 0`, else `start`. -/
def Table.lastrow (t : Table) : Int :=
  if 0 < t.step then t.start + t.step * (t.length - 1) else t.start

/-- `Table._check_length` (table.py:137-144): raise ValueError unless the
last touched row index is strictly below the buffer's current length. -/
def check_length (t : Table) (x : Buf) : Except Err Buf :=
  if (x.length : Int) ≤ t.lastrow then .error .lengthViolation else .ok x

/-- Ordered-mapping lookup in `content` (Python `self._content[name]`,
first match by name). -/
def lookupName (l : List (String × Nat)) (n : String) : Option Nat :=
  match l with
  | [] => none
  | p :: rest => if p.1 = n then some p.2 else lookupName rest n

/-- CPython's slice-index adjustment against a sequence of length `n` for a
slice with step `k`: negative indices count from the end, then the index is
clamped to `[0, n]` for positive step and `[-1, n-1]` for negative step. -/
def adjustIdx (n : Nat) (k : Int) (i : Int) : Int :=
  let j := if i < 0 then i + n else i
  if j < 0 then (if k < 0 then -1 else 0)
  else if (n : Int) ≤ j then (if k < 0 then (n : Int) - 1 else (n : Int)) else j

/-- CPython's default stop for an omitted (`None`) slice stop. -/
def defaultStop (n : Nat) (k : Int) : Int := if k < 0 then -1 else (n : Int)

/-- How many elements the extended slice `[s : t? : k]` of a sequence of
length `n` selects (CPython slice length). -/
def sliceCount (n : Nat) (s : Int) (t? : Option Int) (k : Int) : Nat :=
  let s1 := adjustIdx n k s
  let t1 := match t? with | some t => adjustIdx n k t | none => defaultStop n k
  if 0 < k then ((t1 - s1).toNat + (k.toNat - 1)) / k.toNat
  else ((s1 - t1).toNat + ((-k).toNat - 1)) / (-k).toNat

/-- The absolute positions the extended slice `[s : t? : k]` touches, in
order: `s1, s1+k, s1+2k, ...`. -/
def slicePos (n : Nat) (s : Int) (t? : Option Int) (k : Int) : List Nat :=
  (List.range (sliceCount n s t? k)).map (fun j => (adjustIdx n k s + k * j).toNat)

/-- Extended-slice read `x[s : t? : k]` on a buffer. -/
def getSliceB (xs : Buf) (s : Int) (t? : Option Int) (k : Int) : Buf :=
  (slicePos xs.length s t? k).map (fun p => xs.getD p 0)

/-- Write `vs` elementwise at the positions `ps` (in order). -/
def writePos (xs : Buf) (ps : List Nat) (vs : List Int) : Buf :=
  match ps, vs with
  | p :: ps, v :: vs => writePos (xs.set p v) ps vs
  | _, _ => xs

/-- Extended-slice assignment `x[s : t? : k] = vals` on a buffer, with
numpy's broadcasting: the value sequence must have exactly as many elements
as the slice selects, or exactly one element (broadcast); any other length
raises ValueError. -/
def setSliceList (xs : Buf) (s : Int) (t? : Option Int) (k : Int) (vals : List Int) :
    Except Err Buf :=
  let cnt := sliceCount xs.length s t? k
  let pos := slicePos xs.length s t? k
  if vals.length = cnt then .ok (writePos xs pos vals)
  else if vals.length = 1 then .ok (writePos xs pos (List.replicate cnt (vals.getD 0 0)))
  else .error .shapeMismatch

/-- The absolute buffer positions the table's window `[start : stop : step]`
addresses on a buffer of length `n`. -/
def winPos (t : Table) (n : Nat) : List Nat := slicePos n t.start t.stop t.step

/-- A column source handed to the constructor or to `__setitem__`: either an
existing column buffer object (a numpy array, identified by its buffer id)
or a raw Python sequence whose elements are copied into new storage. -/
inductive ColSrc where
  | buf (id : Nat)
  | raw (xs : Buf)
  deriving DecidableEq

/-- Modelled from the spec: `_toarray` (awkward/base.py, not among the
provided sources) coerces a column source "into the column-buffer
abstraction"; per the spec a slice shares "the same `content` ... Never
copies column storage", so coercion of an existing column buffer is the
identity on its storage, while a raw sequence gets a fresh buffer. -/
def toarray (h : Heap) : ColSrc → Heap × Nat
  | .buf i => (h, i)
  | .raw xs => (h ++ [xs], h.length)

/-- The element values a column source holds. -/
def srcVals (h : Heap) : ColSrc → Buf
  | .buf i => h.getD i []
  | .raw xs => xs

/-- `Table.__setitem__` with a string key (table.py:184-195): a new name
requires the identity window and stores the coerced source; an existing
name assigns into that column's windowed range `[start : stop : step]`
after the length check. -/
def setName (h : Heap) (t : Table) (n : String) (what : ColSrc) :
    Except Err (Heap × Table) :=
  match lookupName t.content n with
  | none =>
    if t.start ≠ 0 ∨ t.step ≠ 1 then .error .viewMutation
    else .ok ((toarray h what).1, { t with content := t.content ++ [(n, (toarray h what).2)] })
  | some bid =>
    match check_length t (h.getD bid []) with
    | .error e => .error e
    | .ok x =>
      match setSliceList x t.start t.stop t.step (srcVals h what) with
      | .error e => .error e
      | .ok y => .ok (h.set bid y, t)

/-- The first positional constructor argument (table.py:40): a dict, a
sequence-like/array-like object, or something else entirely. -/
inductive FirstArg where
  | dict (entries : List (String × ColSrc))
  | seqlike (x : ColSrc)
  | other

/-- The dict branch of `Table.__init__` (table.py:47-55): for each entry,
the duplicate check against `seen`, the assignment `self[n] = x`, and then
— inside the loop body — the check that no extra positional arguments were
given. -/
def initDictLoop (h : Heap) (t : Table) (seen : List String)
    (entries : List (String × ColSrc)) (c2len : Nat) : Except Err (Heap × Table) :=
  match entries with
  | [] => .ok (h, t)
  | (n, x) :: rest =>
    if n ∈ seen then .error .duplicateField
    else
      match setName h t n x with
      | .error e => .error e
      | .ok (h1, t1) =>
        if c2len ≠ 0 then .error .dictPlusPositional
        else initDictLoop h1 t1 (n :: seen) rest c2len

/-- The positional-varargs loop of `Table.__init__` (table.py:59-60):
auto-named columns `f1, f2, ...` after `f0`; note the names are never added
to `seen`. -/
def initPosLoop (h : Heap) (t : Table) (i : Nat) (xs : List ColSrc) :
    Except Err (Heap × Table) :=
  match xs with
  | [] => .ok (h, t)
  | x :: rest =>
    match setName h t ("f" ++ toString i) x with
    | .error e => .error e
    | .ok (h1, t1) => initPosLoop h1 t1 (i + 1) rest

/-- The keyword-argument loop of `Table.__init__` (table.py:65-70). -/
def initKwLoop (h : Heap) (t : Table) (seen : List String)
    (kw : List (String × ColSrc)) : Except Err (Heap × Table) :=
  match kw with
  | [] => .ok (h, t)
  | (n, x) :: rest =>
    if n ∈ seen then .error .duplicateField
    else
      match setName h t n x with
      | .error e => .error e
      | .ok (h1, t1) => initKwLoop h1 t1 (n :: seen) rest

/-- `Table.__init__` (table.py:40-70): identity window, `length` validated
non-negative by the length setter, then the dict / sequence-like / invalid
branches on the first positional argument, then the keyword columns. -/
def tableInit (h : Heap) (len : Int) (c1 : FirstArg) (c2 : List ColSrc)
    (c3 : List (String × ColSrc)) : Except Err (Heap × Table) :=
  if len < 0 then .error .lengthNeg
  else
    let t : Table := ⟨0, 1, len, []⟩
    match c1 with
    | .dict entries =>
      match initDictLoop h t [] entries c2.length with
      | .error e => .error e
      | .ok (h1, t1) => initKwLoop h1 t1 (entries.map Prod.fst) c3
    | .seqlike x =>
      match setName h t "f0" x with
      | .error e => .error e
      | .ok (h1, t1) =>
        match initPosLoop h1 t1 1 c2 with
        | .error e => .error e
        | .ok (h2, t2) => initKwLoop h2 t2 [] c3
    | .other => .error .badPositional

/-- `Table.__getitem__` with a string key (table.py:149-150): look the
column up, length-check it, and return its windowed data. -/
def getName (h : Heap) (t : Table) (n : String) : Except Err Buf :=
  match lookupName t.content n with
  | none => .error .unknownField
  | some bid =>
    match check_length t (h.getD bid []) with
    | .error e => .error e
    | .ok x => .ok (getSliceB x t.start t.stop t.step)

/-- Python element access `x[i]` on a buffer: a negative index counts from
the end; out of range raises IndexError. -/
def getElemI (xs : Buf) (i : Int) : Except Err Int :=
  let j := if i < 0 then i + xs.length else i
  if 0 ≤ j ∧ j < (xs.length : Int) then .ok (xs.getD j.toNat 0) else .error .indexOutOfRange

/-- `Table.__getitem__` with an integer key (table.py:152-153): for every
column in declared order, length-check the buffer and read the element at
the given index directly (`self._check_length(x)[where]` — the raw index,
not mapped through the window). -/
def getRow (h : Heap) (t : Table) (i : Int) : Except Err (List (String × Int)) :=
  t.content.mapM (fun p =>
    match check_length t (h.getD p.2 []) with
    | .error e => .error e
    | .ok x => (getElemI x i).map (fun v => (p.1, v)))

/-- The code's length formula for a composed slice window (table.py:162-163
and, per the spec, the intended arithmetic of the `stop` setter):
`d + (1 if m != 0 else 0)` where `(d, m) = divmod(|a - b|, |c|)`. -/
def ceilLen (a b c : Int) : Int :=
  (((a - b).natAbs / c.natAbs + (if (a - b).natAbs % c.natAbs ≠ 0 then 1 else 0) : Nat) : Int)

/-- `Table.__getitem__` with a slice key (table.py:155-165), taking the
slice already normalized against the current logical length into
`(a, b, c)` (what `where.indices(self._length)` returns): build
`Table(self._length, self._content)` and then overwrite the window fields
with the composed window. -/
def getSliceT (h : Heap) (t : Table) (a b c : Int) : Except Err (Heap × Table) :=
  match tableInit h t.length (.dict (t.content.map (fun p => (p.1, ColSrc.buf p.2)))) [] [] with
  | .error e => .error e
  | .ok (h1, out) =>
    .ok (h1, { out with start := t.start + t.step * a, step := t.step * c,
                        length := ceilLen a b c })

/-- Boolean-mask selection on a buffer (numpy `x[mask]`): the elements at
the positions where the mask is true, in fresh storage. -/
def maskB (xs : Buf) (mask : List Bool) : Buf :=
  ((xs.zip mask).filter (fun p => p.2)).map Prod.fst

/-- `Table.__getitem__` with a boolean-mask key (table.py:167-175, the
branch for a key that is neither string, integer, slice nor all-strings):
`Table(self._length, dict((n, self._check_length(x)[where]) ...))` — the
mask applied to each raw column buffer, the parent's `_length` — and then
`out._start`/`out._step` copied from the parent. -/
def getMask (h : Heap) (t : Table) (mask : List Bool) : Except Err (Heap × Table) :=
  match t.content.mapM (fun p =>
      (check_length t (h.getD p.2 [])).map (fun x => (p.1, ColSrc.raw (maskB x mask)))) with
  | .error e => .error e
  | .ok entries =>
    match tableInit h t.length (.dict entries) [] [] with
    | .error e => .error e
    | .ok (h1, out) => .ok (h1, { out with start := t.start, step := t.step })

/-- The per-column write loop of the tuple-of-names branch of
`Table.__setitem__` (table.py:213-214): look each named column up, length
check it, assign its windowed range — sequentially, mutating the heap as it
goes, stopping at the first error with the writes so far kept. -/
def setNamesGo (t : Table) (h : Heap) : List (String × Buf) → Heap × Option Err
  | [] => (h, none)
  | (n, vs) :: rest =>
    match lookupName t.content n with
    | none => (h, some .unknownField)
    | some bid =>
      match check_length t (h.getD bid []) with
      | .error e => (h, some e)
      | .ok x =>
        match setSliceList x t.start t.stop t.step vs with
        | .error e => (h, some e)
        | .ok y => setNamesGo t (h.set bid y) rest

/-- `Table.__setitem__` with a tuple/list-of-names key and a sequence value
(table.py:205-214).  A length-1 value sequence takes the branch at
table.py:206-208, whose body first length-checks the first column and then
reads the unbound variable `n`, raising NameError before any write; a
length mismatch raises ValueError before any write; otherwise the values
are assigned to the named columns positionally.  Returns the heap as left
behind (Python exceptions do not roll back earlier writes) and the error,
if one was raised. -/
def setNames (h : Heap) (t : Table) (names : List String) (vals : List Buf) :
    Heap × Option Err :=
  if vals.length = 1 then
    match t.content.head? with
    | none => (h, none)
    | some p =>
      match check_length t (h.getD p.2 []) with
      | .error e => (h, some e)
      | .ok _ => (h, some .nameErrorUnboundN)
  else if vals.length ≠ names.length then (h, some .shapeMismatch)
  else setNamesGo t h (names.zip vals)

/-- `abs(self._start, value)` (table.py:119): Python's built-in `abs` takes
exactly one argument, so this call raises TypeError for every input. -/
def absTwoArg (_x _v : Int) : Except Err Int := .error .typeAbsTwoArgs

/-- The `stop` setter (table.py:113-120): reject a negative value, then
compute `divmod(abs(self._start, value), abs(self._step))` — whose inner
call raises TypeError unconditionally — and store the resulting length. -/
def setStop (t : Table) (v : Int) : Except Err Table :=
  if v < 0 then .error .typeStopNonneg
  else
    match absTwoArg t.start v with
    | .error e => .error e
    | .ok a =>
      .ok { t with length :=
        ((a.natAbs / t.step.natAbs + (if a.natAbs % t.step.natAbs ≠ 0 then 1 else 0) : Nat) : Int) }

/-- The spec's running example: columns `x = [0,1,2,3,4]`,
`y = [10,20,30,40,50]`, length 5, identity window. -/
def hEx : Heap := [[0, 1, 2, 3, 4], [10, 20, 30, 40, 50]]

/-- The example table over `hEx`: identity window, columns x and y. -/
def TEx : Table := ⟨0, 1, 5, [("x", 0), ("y", 1)]⟩

/-- A table whose y column was constructed shorter than the declared
length: length 5 over x of length 5 and y of length 2. -/
def hShort : Heap := [[0, 1, 2, 3, 4], [10, 20]]

/-- The table over `hShort` addressing rows 0..4 of both columns. -/
def TShort : Table := ⟨0, 1, 5, [("x", 0), ("y", 1)]⟩

theorem hEx_TEx_from_init :
    tableInit [] 5 (.dict [("x", .raw [0, 1, 2, 3, 4]), ("y", .raw [10, 20, 30, 40, 50])]) [] []
      = .ok (hEx, TEx) := rfl

/-- The example's windowed column read: `table["x"] = [0,1,2,3,4]`. -/
theorem getName_x_ex : getName hEx TEx "x" = .ok [0, 1, 2, 3, 4] := rfl

/-- C1: assigning 3 to `stop` on the example table (start 0, step 1,
length 5) raises TypeError — `abs(self._start, value)` calls `abs` with two
arguments — instead of setting `length` to `divmod(|3 - 0|, 1)`-based 3 as
the claim states. -/
theorem stop_set_raises : setStop TEx 3 = .error .typeAbsTwoArgs := rfl

/-- C2: masking the length-5 example with [True,False,True,False,True]
yields a table whose columns are the newly materialized buffers `[0,2,4]`
and `[10,30,50]` (buffer ids 2 and 3) but whose `length` is still 5, the
parent's length, not the new column length 3 the claim requires; `start`
and `step` are copied from the parent. -/
theorem mask_keeps_parent_length :
    getMask hEx TEx [true, false, true, false, true] =
      .ok ([[0, 1, 2, 3, 4], [10, 20, 30, 40, 50], [0, 2, 4], [10, 30, 50]],
           ⟨0, 1, 5, [("x", 2), ("y", 3)]⟩) ∧
    (5 : Int) ≠ 3 := ⟨rfl, by decide⟩

/-- C3: `table[1:4]` (normalized slice indices (1, 4, 1) against length 5)
is the view with window (1, 1, 3) sharing buffers 0 and 1; `view[0]` then
returns the raw elements at index 0, `(x=0, y=10)`, not the window-mapped
`(x=1, y=20)` the claim states. -/
theorem getrow_ignores_window :
    getSliceT hEx TEx 1 4 1 = .ok (hEx, ⟨1, 1, 3, [("x", 0), ("y", 1)]⟩) ∧
    getRow hEx ⟨1, 1, 3, [("x", 0), ("y", 1)]⟩ 0 = .ok [("x", 0), ("y", 10)] :=
  ⟨rfl, rfl⟩

/-- C7: constructing `Table(3, [1,2,3], f0=[4,5,6])` — a positional column
auto-named f0 colliding with the keyword column f0 — does not raise: the
auto-name is never recorded in `seen`, so the keyword assignment finds the
existing column and overwrites its windowed contents. -/
theorem init_f0_collision_overwrites :
    tableInit [] 3 (.seqlike (.raw [1, 2, 3])) [] [("f0", .raw [4, 5, 6])] =
      .ok ([[4, 5, 6]], ⟨0, 1, 3, [("f0", 0)]⟩) := rfl

/-- C8: constructing `Table(3, {}, [1,2,3])` — an empty dict plus an extra
positional source — does not raise: the only-one-positional check sits
inside the dict loop's body, which never runs for an empty dict; the extra
positional column is silently ignored. -/
theorem init_empty_dict_ignores_positional :
    tableInit [] 3 (.dict []) [ColSrc.raw [1, 2, 3]] [] = .ok ([], ⟨0, 1, 3, []⟩) := rfl

/-- C9: `table[("x", "y")] = [7]` on the example table takes the
single-element broadcast branch, whose body reads the unbound variable `n`:
it raises NameError (after the first column's length check) and writes
nothing, instead of broadcasting 7 into both columns' windowed ranges. -/
theorem names_broadcast_raises_nameerror :
    setNames hEx TEx ["x", "y"] [[7]] = (hEx, some .nameErrorUnboundN) := rfl

/-- C10 counterexample: on the table whose y buffer has length 2 while the
window addresses rows 0..4, the multi-column write `table[("x","y")] =
[[9,...], [8,...]]` fails with the length violation on y, but only after
the x column has already been overwritten: the failed write leaves partial
mutation visible. -/
theorem multi_write_leaves_partial :
    setNames hShort TShort ["x", "y"] [[9, 9, 9, 9, 9], [8, 8, 8, 8, 8]] =
      ([[9, 9, 9, 9, 9], [10, 20]], some .lengthViolation) ∧
    ([[9, 9, 9, 9, 9], [10, 20]] : Heap) ≠ hShort := ⟨rfl, by decide⟩

/-- Setting an element leaves every other position of the list unchanged. -/
theorem getD_set_ne_awk {α : Type} (a d : α) :
    ∀ (l : List α) (i j : Nat), i ≠ j → (l.set i a).getD j d = l.getD j d := by
  intro l i j hij
  rw [List.getD_eq_getElem?_getD, List.getD_eq_getElem?_getD, List.getElem?_set_ne hij]

/-- Setting an in-range element makes that position hold the new value. -/
theorem getD_set_self_awk {α : Type} (a d : α) :
    ∀ (l : List α) (i : Nat), i < l.length → (l.set i a).getD i d = a := by
  intro l
  induction l with
  | nil => intro i h; simp at h
  | cons x xs ih =>
    intro i h
    cases i with
    | zero => rfl
    | succ i =>
      show (xs.set i a).getD i d = a
      exact ih i (by simpa using h)

/-- `writePos` never changes the buffer's length. -/
theorem writePos_length :
    ∀ (ps : List Nat) (xs : Buf) (vs : List Int), (writePos xs ps vs).length = xs.length := by
  intro ps
  induction ps with
  | nil => intro xs vs; cases vs <;> rfl
  | cons p ps ih =>
    intro xs vs
    cases vs with
    | nil => rfl
    | cons v vs =>
      show (writePos (xs.set p v) ps vs).length = xs.length
      rw [ih, List.length_set]

/-- `writePos` leaves every position outside its position list unchanged. -/
theorem writePos_getD (q : Nat) (d : Int) :
    ∀ (ps : List Nat) (xs : Buf) (vs : List Int), q ∉ ps →
      (writePos xs ps vs).getD q d = xs.getD q d := by
  intro ps
  induction ps with
  | nil => intro xs vs _; cases vs <;> rfl
  | cons p ps ih =>
    intro xs vs hq
    simp only [List.mem_cons, not_or] at hq
    cases vs with
    | nil => rfl
    | cons v vs =>
      show (writePos (xs.set p v) ps vs).getD q d = xs.getD q d
      rw [ih _ _ hq.2, getD_set_ne_awk _ _ _ _ _ (Ne.symm hq.1)]

/-- A name absent from an association list looks up to `none`. -/
theorem lookupName_eq_none {l : List (String × Nat)} {n : String}
    (h : n ∉ l.map Prod.fst) : lookupName l n = none := by
  induction l with
  | nil => rfl
  | cons p rest ih =>
    simp only [List.map_cons, List.mem_cons, not_or] at h
    simp only [lookupName]
    rw [if_neg (fun hp => h.1 hp.symm)]
    exact ih h.2

/-- Lookup passes over a prefix in which the name does not occur. -/
theorem lookupName_append_of_none {l1 : List (String × Nat)} (l2 : List (String × Nat))
    (n : String) (h : lookupName l1 n = none) :
    lookupName (l1 ++ l2) n = lookupName l2 n := by
  induction l1 with
  | nil => rfl
  | cons p rest ih =>
    simp only [lookupName] at h
    by_cases hp : p.1 = n
    · rw [if_pos hp] at h; cases h
    · rw [if_neg hp] at h
      show lookupName (p :: (rest ++ l2)) n = lookupName l2 n
      simp only [lookupName]
      rw [if_neg hp]
      exact ih h

/-- A successful extended-slice assignment is `writePos` at the slice's
positions (with the exact values or the broadcast ones). -/
theorem setSliceList_shape {xs : Buf} {s : Int} {t? : Option Int} {k : Int}
    {vals : List Int} {y : Buf} (h : setSliceList xs s t? k vals = .ok y) :
    ∃ vs, y = writePos xs (slicePos xs.length s t? k) vs := by
  simp only [setSliceList] at h
  split at h
  · exact ⟨vals, (Except.ok.injEq _ _).mp h |>.symm⟩
  · split at h
    · exact ⟨_, (Except.ok.injEq _ _).mp h |>.symm⟩
    · cases h

/-- A length-checked buffer is returned unchanged. -/
theorem check_length_ok {t : Table} {b x : Buf} (h : check_length t b = .ok x) : x = b := by
  simp only [check_length] at h
  split at h
  · cases h
  · exact ((Except.ok.injEq _ _).mp h).symm

/-- C6: the length invariant is enforced lazily, at access time, against
the buffer's current length.  (1) `_check_length` raises exactly when the
window's last touched absolute row index `lastrow` — `start +
step*(length-1)` for positive step, else `start` — is not strictly below
the buffer's length; (2) reading a column by name raises `LengthViolation`
exactly when that column's current buffer fails this bound; (3)
construction performs no such check: a table of any declared non-negative
length is built successfully from a column of any length, however short. -/
theorem length_check_lazy (t : Table) (x : Buf) :
    (check_length t x = .error .lengthViolation ↔ (x.length : Int) ≤ t.lastrow) ∧
    (∀ (h : Heap) (n : String) (bid : Nat), lookupName t.content n = some bid →
      (getName h t n = .error .lengthViolation ↔
        (((h.getD bid []).length : Int) ≤ t.lastrow))) ∧
    (∀ (L : Int) (xs : Buf), 0 ≤ L →
      tableInit [] L (.seqlike (.raw xs)) [] [] = .ok ([xs], ⟨0, 1, L, [("f0", 0)]⟩)) := by
  refine ⟨?_, ?_, ?_⟩
  · by_cases hc : (x.length : Int) ≤ t.lastrow <;> simp [check_length, hc]
  · intro h n bid hlk
    simp only [getName, hlk, check_length]
    by_cases hc : ((h.getD bid []).length : Int) ≤ t.lastrow
    · rw [if_pos hc]
      exact iff_of_true rfl hc
    · rw [if_neg hc]
      exact iff_of_false (fun hco => Except.noConfusion hco) hc
  · intro L xs hL
    simp [tableInit, not_lt.mpr hL, setName, lookupName, toarray, initPosLoop, initKwLoop]

/-- A concrete instance of the lazy length check: the window of `TShort`
still addresses row 4 while the y buffer has been left at length 2, so
reading y raises `LengthViolation` at access time. -/
theorem length_check_lazy_witness :
    getName hShort ⟨0, 1, 5, [("y", 1)]⟩ "y" = .error .lengthViolation :=
  ((length_check_lazy ⟨0, 1, 5, [("y", 1)]⟩ []).2.1 hShort "y" 1 rfl).mpr (by decide)

/-- C5: `__setitem__` with a string key.  For a name not yet present, it
fails with the view-mutation TypeError exactly when the window is not the
identity window, and on the identity window it appends the coerced column;
for a present name, a successful assignment leaves the table itself and
every other buffer untouched, preserves the column buffer's length, and
changes that buffer only at the window's positions `[start : stop : step]`. -/
theorem setName_write_confined (h : Heap) (t : Table) (n : String) (src : ColSrc) :
    (lookupName t.content n = none →
      ((setName h t n src = .error .viewMutation) ↔ (t.start ≠ 0 ∨ t.step ≠ 1)) ∧
      (t.start = 0 → t.step = 1 →
        setName h t n src =
          .ok ((toarray h src).1, { t with content := t.content ++ [(n, (toarray h src).2)] }))) ∧
    (∀ bid h2 t2, lookupName t.content n = some bid → setName h t n src = .ok (h2, t2) →
      t2 = t ∧ h2.length = h.length ∧
      (∀ j, j ≠ bid → h2.getD j [] = h.getD j []) ∧
      (h2.getD bid []).length = (h.getD bid []).length ∧
      (∀ p, p ∉ winPos t (h.getD bid []).length →
        (h2.getD bid []).getD p 0 = (h.getD bid []).getD p 0)) := by
  constructor
  · intro hlk
    constructor
    · by_cases hid : t.start ≠ 0 ∨ t.step ≠ 1 <;> simp [setName, hlk, hid]
    · intro hs hp
      have hid : ¬(t.start ≠ 0 ∨ t.step ≠ 1) := by simp [hs, hp]
      simp [setName, hlk, hid]
  · intro bid h2 t2 hlk heq
    have hred : setName h t n src =
        (match check_length t (h.getD bid []) with
        | .error e => .error e
        | .ok x =>
          match setSliceList x t.start t.stop t.step (srcVals h src) with
          | .error e => .error e
          | .ok y => .ok (h.set bid y, t)) := by
      unfold setName; rw [hlk]
    rw [hred] at heq
    cases hcl : check_length t (h.getD bid []) with
    | error e => rw [hcl] at heq; exact Except.noConfusion heq
    | ok x =>
      rw [hcl] at heq
      have hxb : x = h.getD bid [] := check_length_ok hcl
      have heq2 : (match setSliceList x t.start t.stop t.step (srcVals h src) with
          | Except.error e => Except.error e
          | Except.ok y => Except.ok (h.set bid y, t)) = Except.ok (h2, t2) := heq
      cases hss : setSliceList x t.start t.stop t.step (srcVals h src) with
      | error e => rw [hss] at heq2; exact Except.noConfusion heq2
      | ok y =>
        rw [hss] at heq2
        obtain ⟨vs, hy⟩ := setSliceList_shape hss
        have hpair := (Except.ok.injEq _ _).mp heq2
        have hh2 : h2 = h.set bid y := ((Prod.mk.injEq _ _ _ _).mp hpair).1.symm
        have ht2 : t2 = t := ((Prod.mk.injEq _ _ _ _).mp hpair).2.symm
        subst hh2 ht2 hxb
        by_cases hb : bid < h.length
        · have hget : (h.set bid y).getD bid [] = y := getD_set_self_awk _ _ _ _ hb
          refine ⟨rfl, List.length_set _ _ _, ?_, ?_, ?_⟩
          · intro j hj
            exact getD_set_ne_awk _ _ _ _ _ (Ne.symm hj)
          · rw [hget, hy, writePos_length]
          · intro p hp
            rw [hget, hy]
            exact writePos_getD _ _ _ _ _ hp
        · rw [List.set_eq_of_length_le (le_of_not_lt hb)]
          exact ⟨rfl, rfl, fun _ _ => rfl, rfl, fun _ _ => rfl⟩

/-- A concrete instance: adding a new column z through the derived view
with window (1, 1, 3) — produced by `table[1:4]` — raises the
view-mutation TypeError. -/
theorem setName_write_confined_witness :
    setName hEx ⟨1, 1, 3, [("x", 0), ("y", 1)]⟩ "z" (ColSrc.raw [1]) =
      .error .viewMutation :=
  (((setName_write_confined hEx ⟨1, 1, 3, [("x", 0), ("y", 1)]⟩ "z" (ColSrc.raw [1])).1
    rfl).1).mpr (by decide)

/-- The dict loop of the constructor, fed existing column buffers with no
extra positional arguments, re-inserts every (name, buffer id) pair in
order without touching the heap. -/
theorem initDictLoop_bufs (L : Int) :
    ∀ (entries : List (String × Nat)) (h : Heap) (acc : List (String × Nat))
      (seen : List String),
      (∀ m ∈ entries.map Prod.fst, m ∉ seen) →
      (∀ m ∈ entries.map Prod.fst, lookupName acc m = none) →
      (entries.map Prod.fst).Nodup →
      initDictLoop h ⟨0, 1, L, acc⟩ seen (entries.map (fun p => (p.1, ColSrc.buf p.2))) 0 =
        .ok (h, ⟨0, 1, L, acc ++ entries⟩) := by
  intro entries
  induction entries with
  | nil => intro h acc seen _ _ _; simp [initDictLoop]
  | cons e rest ih =>
    intro h acc seen hseen hacc hnd
    obtain ⟨n, bid⟩ := e
    simp only [List.map_cons] at hnd
    rw [List.nodup_cons] at hnd
    have hn_seen : n ∉ seen := hseen n (by simp)
    have hn_acc : lookupName acc n = none := hacc n (by simp)
    have hset : setName h ⟨0, 1, L, acc⟩ n (.buf bid) =
        .ok (h, ⟨0, 1, L, acc ++ [(n, bid)]⟩) := by
      simp [setName, hn_acc, toarray]
    simp only [List.map_cons, initDictLoop]
    rw [if_neg hn_seen, hset]
    show initDictLoop h ⟨0, 1, L, acc ++ [(n, bid)]⟩ (n :: seen)
        (rest.map (fun p => (p.1, ColSrc.buf p.2))) 0 =
      .ok (h, ⟨0, 1, L, acc ++ (n, bid) :: rest⟩)
    have hseen2 : ∀ m ∈ rest.map Prod.fst, m ∉ n :: seen := by
      intro m hm
      simp only [List.mem_cons, not_or]
      exact ⟨fun hmn => hnd.1 (by rw [← hmn]; exact hm), hseen m (by simp [hm])⟩
    have hacc2 : ∀ m ∈ rest.map Prod.fst, lookupName (acc ++ [(n, bid)]) m = none := by
      intro m hm
      rw [lookupName_append_of_none _ m (hacc m (by simp [hm]))]
      have hne : ¬n = m := fun hnm => hnd.1 (by rw [hnm]; exact hm)
      simp [lookupName, hne]
    rw [ih h (acc ++ [(n, bid)]) (n :: seen) hseen2 hacc2 hnd.2, List.append_assoc,
      List.singleton_append]

/-- `Table(self._length, self._content)` — the constructor applied to the
existing content dict, as the slice branch does — rebuilds the same
content (same names, same buffer ids, same order) over an untouched heap,
at the identity window. -/
theorem tableInit_bufs (h : Heap) (L : Int) (content : List (String × Nat))
    (hnd : (content.map Prod.fst).Nodup) (hL : 0 ≤ L) :
    tableInit h L (.dict (content.map (fun p => (p.1, ColSrc.buf p.2)))) [] [] =
      .ok (h, ⟨0, 1, L, content⟩) := by
  simp only [tableInit, List.length_nil]
  rw [if_neg (not_lt.mpr hL),
    initDictLoop_bufs L content h [] [] (by simp) (fun m _ => rfl) hnd]
  simp [initKwLoop]

/-- The composed-window length is a cast ceiling, hence non-negative. -/
theorem ceilLen_nonneg (a b c : Int) : 0 ≤ ceilLen a b c := Int.natCast_nonneg _

/-- Scaling a sub-slice into an outer slice of step c1 preserves the code's
length formula: the common factor |c1| cancels out of the ceiling
division. -/
theorem ceilLen_comp (x a b c1 c2 : Int) (hc1 : c1 ≠ 0) :
    ceilLen (x + c1 * a) (x + c1 * b) (c1 * c2) = ceilLen a b c2 := by
  unfold ceilLen
  have hd : x + c1 * a - (x + c1 * b) = c1 * (a - b) := by ring
  rw [hd, Int.natAbs_mul, Int.natAbs_mul]
  have hk : 0 < c1.natAbs := Int.natAbs_pos.mpr hc1
  rw [Nat.mul_div_mul_left _ _ hk, Nat.mul_mod_mul_left]
  by_cases hm : (a - b).natAbs % c2.natAbs = 0
  · simp [hm]
  · simp [hm, Nat.mul_eq_zero, hk.ne']

/-- Slicing by a normalized triple yields exactly the composed window of
table.py:159-163 over the same content and an untouched heap. -/
theorem getSliceT_eq (h : Heap) (t : Table) (a b c : Int)
    (hnd : (t.content.map Prod.fst).Nodup) (hL : 0 ≤ t.length) :
    getSliceT h t a b c =
      .ok (h, ⟨t.start + t.step * a, t.step * c, ceilLen a b c, t.content⟩) := by
  unfold getSliceT
  rw [tableInit_bufs h t.length t.content hnd hL]

/-- C4: slicing twice — by the normalized triples (a1, b1, c1) and then
(a2, b2, c2) — produces the same window as one slice by the directly
composed triple (a1 + c1*a2, a1 + c1*b2, c1*c2) under the rule
`new_start = start + step*sub_start`, `new_step = step*sub_step`,
`new_length = d + (1 if m != 0 else 0)` with
`(d, m) = divmod(|sub_start - sub_stop|, |sub_step|)`; and every slice
leaves the heap untouched and holds the very same buffer ids, so no
column storage is ever copied. -/
theorem slice_compose_shares (h : Heap) (t : Table) (a1 b1 c1 a2 b2 c2 : Int)
    (hnd : (t.content.map Prod.fst).Nodup) (hL : 0 ≤ t.length) (hc1 : c1 ≠ 0) :
    ∃ t1 t2 : Table,
      getSliceT h t a1 b1 c1 = .ok (h, t1) ∧
      getSliceT h t1 a2 b2 c2 = .ok (h, t2) ∧
      getSliceT h t (a1 + c1 * a2) (a1 + c1 * b2) (c1 * c2) = .ok (h, t2) ∧
      t1.content = t.content ∧ t2.content = t.content := by
  refine ⟨⟨t.start + t.step * a1, t.step * c1, ceilLen a1 b1 c1, t.content⟩,
    ⟨t.start + t.step * a1 + t.step * c1 * a2, t.step * c1 * c2, ceilLen a2 b2 c2, t.content⟩,
    getSliceT_eq h t a1 b1 c1 hnd hL, ?_, ?_, rfl, rfl⟩
  · exact getSliceT_eq h _ a2 b2 c2 hnd (ceilLen_nonneg a1 b1 c1)
  · rw [getSliceT_eq h t _ _ _ hnd hL, ceilLen_comp a1 a2 b2 c1 c2 hc1]
    have hs : t.start + t.step * (a1 + c1 * a2) =
        t.start + t.step * a1 + t.step * c1 * a2 := by ring
    have hp : t.step * (c1 * c2) = t.step * c1 * c2 := by ring
    rw [hs, hp]

/-- A concrete instance of slice composition on the example table:
`table[1:4]` (triple (1, 4, 1)) then `[0:2]` (triple (0, 2, 1)) equals the
directly composed slice, with the heap and buffer ids shared throughout. -/
theorem slice_compose_shares_witness :
    ∃ t1 t2 : Table,
      getSliceT hEx TEx 1 4 1 = .ok (hEx, t1) ∧
      getSliceT hEx t1 0 2 1 = .ok (hEx, t2) ∧
      getSliceT hEx TEx (1 + 1 * 0) (1 + 1 * 2) (1 * 1) = .ok (hEx, t2) ∧
      t1.content = TEx.content ∧ t2.content = TEx.content :=
  slice_compose_shares hEx TEx 1 4 1 0 2 1 (by decide) (by decide) (by decide)

/-- C10 (amended): the only pre-validated failure of the tuple-of-names
write is the shape check — a value sequence whose length matches neither 1
nor the number of selected names fails with the shape ValueError before
any element is written, leaving the heap exactly as it was. -/
theorem shape_checked_before_writes (h : Heap) (t : Table) (names : List String)
    (vals : List Buf) (h1 : vals.length ≠ 1) (h2 : vals.length ≠ names.length) :
    setNames h t names vals = (h, some .shapeMismatch) := by
  simp [setNames, h1, h2]

/-- A concrete instance: three value rows against two selected columns
fail the shape check with the heap unchanged. -/
theorem shape_checked_before_writes_witness :
    setNames hEx TEx ["x", "y"] [[1], [2], [3]] = (hEx, some .shapeMismatch) :=
  shape_checked_before_writes hEx TEx ["x", "y"] [[1], [2], [3]] (by decide) (by decide)

end Awk
